import Mathlib

/-!
Verification development for the template-engine repository.

The repository extracts a "template schema" from a project directory and
replays it against user variables.  The core algorithms verified here are:

* the content codec (`internal/core/compression.go`): threshold-gated
  gzip+base64 compression and its inverse;
* hashing (`internal/core/validation.go`): SHA-256 over uncompressed bytes;
* schema and variable validation (`internal/core/validation.go`);
* the skip rules of the concrete template types
  (`internal/templates/common.go`, `frontend.go`, `goapi.go`, `fullstack.go`);
* the per-template-type schema hash (`calculateSchemaHash`);
* the generator's templating pipeline (`internal/generate/generator.go`):
  mapping substitution, placeholder protection, brace escaping, Go
  `text/template` execution over the fixed expression vocabulary, and
  un-escaping.

Modelling conventions:

* Go strings are arbitrary byte sequences; they are modelled as `List Nat`
  (`Bytes`).  `ascii` converts a Lean string literal (ASCII only) to bytes.
* `strings.ReplaceAll` is modelled by `replaceAll` (leftmost, non-overlapping
  scan).  The Go function also works for an empty pattern (it then inserts
  between characters); every pattern used by this repository is non-empty and
  the model keeps the string unchanged for an empty pattern.
* Fallible operations return `Except Bytes` / `Option`, with the error
  message bytes following the `fmt.Errorf` format strings of the source.
-/

namespace TemplateEngine

/-- Go strings are byte strings; bytes are modelled as natural numbers. -/
abbrev Bytes := List Nat

/-- Bytes of an ASCII Lean string literal. -/
def ascii (s : String) : Bytes := s.data.map Char.toNat

/-! ### `strings.ReplaceAll`

Modelled with explicit fuel so that the definition is structurally recursive
and therefore evaluates inside the kernel.  `replaceAll` supplies enough fuel
(`s.length`) for the scan to finish. -/

/-- Fuelled leftmost non-overlapping replace-all scan. -/
def replaceAllF (p r : Bytes) : Nat → Bytes → Bytes
  | _, [] => []
  | 0, s => s
  | fuel+1, a :: s =>
    if p ≠ [] ∧ p.isPrefixOf (a :: s) then
      r ++ replaceAllF p r fuel ((a :: s).drop p.length)
    else
      a :: replaceAllF p r fuel s

/-- Model of Go `strings.ReplaceAll s p r` (for the non-empty patterns the
repository uses). -/
def replaceAll (p r s : Bytes) : Bytes := replaceAllF p r s.length s

theorem replaceAllF_nil (p r : Bytes) (f : Nat) : replaceAllF p r f [] = [] := by
  cases f <;> rfl

theorem replaceAllF_succ_pos {p : Bytes} (r : Bytes) {a : Nat} {s : Bytes} (f : Nat)
    (hp : p ≠ []) (hpre : p.isPrefixOf (a :: s)) :
    replaceAllF p r (f+1) (a :: s) = r ++ replaceAllF p r f ((a :: s).drop p.length) := by
  simp [replaceAllF, hp, hpre]

theorem replaceAllF_succ_neg {p : Bytes} (r : Bytes) {a : Nat} {s : Bytes} (f : Nat)
    (hpre : ¬ (p.isPrefixOf (a :: s) = true)) :
    replaceAllF p r (f+1) (a :: s) = a :: replaceAllF p r f s := by
  simp [replaceAllF, hpre]

theorem replaceAllF_eq_of_le {p r : Bytes} (hp : p ≠ []) :
    ∀ (f₁ : Nat) (s : Bytes), s.length ≤ f₁ → ∀ (f₂ : Nat), s.length ≤ f₂ →
      replaceAllF p r f₁ s = replaceAllF p r f₂ s := by
  intro f₁
  induction f₁ with
  | zero =>
    intro s hs f₂ _
    have hsnil : s = [] := List.length_eq_zero.mp (Nat.le_zero.mp hs)
    subst hsnil
    simp [replaceAllF_nil]
  | succ f ih =>
    intro s hs f₂ h₂
    cases s with
    | nil => simp [replaceAllF_nil]
    | cons a t =>
      cases f₂ with
      | zero => simp at h₂
      | succ f₂ =>
        have hplen : 0 < p.length := List.length_pos.mpr hp
        by_cases hpre : p.isPrefixOf (a :: t)
        · rw [replaceAllF_succ_pos r f hp hpre, replaceAllF_succ_pos r f₂ hp hpre]
          have hd : ((a :: t).drop p.length).length = (a :: t).length - p.length :=
            List.length_drop _ _
          have hlist : (a :: t).length = t.length + 1 := by simp
          refine congrArg (r ++ ·) (ih _ ?_ _ ?_) <;> (rw [hd, hlist]; simp at hs h₂; omega)
        · rw [replaceAllF_succ_neg r f hpre, replaceAllF_succ_neg r f₂ hpre]
          refine congrArg (a :: ·) (ih _ ?_ _ ?_) <;> (simp at hs h₂ ⊢; omega)

theorem replaceAll_nil (p r : Bytes) : replaceAll p r [] = [] := rfl

theorem replaceAll_cons_neg {p : Bytes} (r : Bytes) {a : Nat} {s : Bytes}
    (hpre : ¬ (p.isPrefixOf (a :: s) = true)) :
    replaceAll p r (a :: s) = a :: replaceAll p r s := by
  unfold replaceAll
  exact replaceAllF_succ_neg r s.length hpre

/-- A replacement fires at the head of the string. -/
theorem replaceAll_head {p : Bytes} (r : Bytes) (z : Bytes) (hp : p ≠ []) :
    replaceAll p r (p ++ z) = r ++ replaceAll p r z := by
  cases p with
  | nil => exact absurd rfl hp
  | cons a q =>
    have hpre : (a :: q).isPrefixOf ((a :: q) ++ z) :=
      List.isPrefixOf_iff_prefix.mpr ⟨z, rfl⟩
    have h1 : (a :: q) ++ z = a :: (q ++ z) := rfl
    unfold replaceAll
    rw [h1]
    have hl : (a :: (q ++ z)).length = (q ++ z).length + 1 := rfl
    rw [hl, replaceAllF_succ_pos r (q ++ z).length hp (h1 ▸ hpre)]
    have hdrop : (a :: (q ++ z)).drop (a :: q).length = z := List.drop_left (a :: q) z
    rw [hdrop]
    refine congrArg (r ++ ·) (replaceAllF_eq_of_le hp _ _ ?_ _ ?_)
    · simp
    · exact Nat.le_refl _

/-- If the pattern does not occur in the string, `replaceAll` is the
identity. -/
theorem replaceAll_of_not_infix {p : Bytes} (r : Bytes) :
    ∀ {s : Bytes}, ¬ (p <:+: s) → replaceAll p r s = s := by
  intro s
  induction s with
  | nil => intro _; rfl
  | cons a t ih =>
    intro h
    have hpre : ¬ (p.isPrefixOf (a :: t) = true) := by
      intro hpre
      exact h (List.isPrefixOf_iff_prefix.mp hpre).isInfix
    rw [replaceAll_cons_neg r hpre, ih (fun hInf => h (List.infix_cons hInf))]

/-- A prefix of `a` is an infix of `a ++ b`. -/
theorem prefix_infix_append {p a : Bytes} (b : Bytes) (h : p <+: a) : p <:+: a ++ b := by
  obtain ⟨d, rfl⟩ := h
  exact ⟨[], d ++ b, by simp⟩

/-- Scanning passes over a block that starts no occurrence of the pattern:
occurrences starting inside `x` would lie inside `x ++ z.take (p.length-1)`. -/
theorem replaceAll_append_of_no_occ {p : Bytes} (r : Bytes) (hp : p ≠ []) :
    ∀ {x z : Bytes}, ¬ (p <:+: x ++ z.take (p.length - 1)) →
      replaceAll p r (x ++ z) = x ++ replaceAll p r z := by
  intro x
  induction x with
  | nil => intro z _; simp
  | cons a x ih =>
    intro z h
    have hplen : 0 < p.length := List.length_pos.mpr hp
    have hpre : ¬ (p.isPrefixOf (a :: (x ++ z)) = true) := by
      intro hpre
      have hpfx : p <+: (a :: x) ++ z := by
        simpa using List.isPrefixOf_iff_prefix.mp hpre
      have htake : p = ((a :: x) ++ z).take p.length :=
        List.prefix_iff_eq_take.mp hpfx
      rw [List.take_append_eq_append_take] at htake
      by_cases hle : p.length ≤ (a :: x).length
      · have hz : p.length - (a :: x).length = 0 := Nat.sub_eq_zero_of_le hle
        rw [hz] at htake
        simp at htake
        have hpfx2 : p <+: (a :: x) := htake ▸ List.take_prefix _ _
        exact h (prefix_infix_append _ hpfx2)
      · have hlt : (a :: x).length < p.length := Nat.lt_of_not_le hle
        have htk : (a :: x).take p.length = a :: x :=
          List.take_of_length_le (Nat.le_of_lt hlt)
        rw [htk] at htake
        have hmono : z.take (p.length - (a :: x).length) <+: z.take (p.length - 1) := by
          apply List.take_prefix_take_left
          have : 1 ≤ (a :: x).length := by simp
          omega
        obtain ⟨d, hd⟩ := hmono
        have hpd : p ++ d = (a :: x) ++ z.take (p.length - 1) := by
          calc p ++ d
              = ((a :: x) ++ z.take (p.length - (a :: x).length)) ++ d := by rw [← htake]
            _ = (a :: x) ++ (z.take (p.length - (a :: x).length) ++ d) := by
                rw [List.append_assoc]
            _ = (a :: x) ++ z.take (p.length - 1) := by rw [hd]
        exact h (List.IsPrefix.isInfix ⟨d, hpd⟩)
    have h1 : (a :: x) ++ z = a :: (x ++ z) := rfl
    rw [h1, replaceAll_cons_neg r hpre, ih (fun hInf => h (List.infix_cons hInf))]
    rfl

/-- Membership refutation for infixes. -/
theorem not_infix_of_not_mem {p s : Bytes} {c : Nat} (hc : c ∈ p) (hn : c ∉ s) :
    ¬ (p <:+: s) := fun h => hn (h.subset hc)

/-- Counting refutation for infixes: a pattern with two copies of a byte
cannot occur in a string holding at most one. -/
theorem not_infix_of_count {p s : Bytes} {c : Nat}
    (h2 : 2 ≤ p.count c) (hs : s.count c ≤ 1) : ¬ (p <:+: s) := by
  intro h
  have := h.sublist.count_le c
  omega

/-! ### SHA-256 (the `crypto/sha256` collaborator, FIPS 180-4)

`CalculateContentHash` in `validation.go` is `hex.EncodeToString(sha256.Sum256(b))`;
the hash function itself is implemented here so the embedding is executable. -/

/-- 2^32. -/
def w32 : Nat := 4294967296

def add32 (a b : Nat) : Nat := (a + b) % w32

def rotr32 (x n : Nat) : Nat := ((x >>> n) ||| (x <<< (32 - n))) % w32

/-- The 64 round constants of FIPS 180-4 (fractional parts of the cube
roots of the first 64 primes), written in decimal. -/
def shaK : List Nat :=
  [1116352408, 1899447441, 3049323471, 3921009573, 961987163,
   1508970993, 2453635748, 2870763221, 3624381080, 310598401,
   607225278, 1426881987, 1925078388, 2162078206, 2614888103,
   3248222580, 3835390401, 4022224774, 264347078, 604807628,
   770255983, 1249150122, 1555081692, 1996064986, 2554220882,
   2821834349, 2952996808, 3210313671, 3336571891, 3584528711,
   113926993, 338241895, 666307205, 773529912, 1294757372,
   1396182291, 1695183700, 1986661051, 2177026350, 2456956037,
   2730485921, 2820302411, 3259730800, 3345764771, 3516065817,
   3600352804, 4094571909, 275423344, 430227734, 506948616,
   659060556, 883997877, 958139571, 1322822218, 1537002063,
   1747873779, 1955562222, 2024104815, 2227730452, 2361852424,
   2428436474, 2756734187, 3204031479, 3329325298]

/-- The initial hash state of FIPS 180-4 (fractional parts of the square
roots of the first 8 primes), written in decimal. -/
def shaH0 : List Nat :=
  [1779033703, 3144134277, 1013904242, 2773480762,
   1359893119, 2600822924, 528734635, 1541459225]

def ssig0 (x : Nat) : Nat := (rotr32 x 7) ^^^ (rotr32 x 18) ^^^ (x >>> 3)

def ssig1 (x : Nat) : Nat := (rotr32 x 17) ^^^ (rotr32 x 19) ^^^ (x >>> 10)

def bsig0 (x : Nat) : Nat := (rotr32 x 2) ^^^ (rotr32 x 13) ^^^ (rotr32 x 22)

def bsig1 (x : Nat) : Nat := (rotr32 x 6) ^^^ (rotr32 x 11) ^^^ (rotr32 x 25)

/-- Big-endian bytes, fixed width. -/
def natToBytesBE : Nat → Nat → Bytes
  | 0, _ => []
  | k+1, n => natToBytesBE k (n / 256) ++ [n % 256]

/-- FIPS 180-4 padding: 0x80, zeros to 56 mod 64, 64-bit big-endian bit length. -/
def shaPad (msg : Bytes) : Bytes :=
  let r := (msg.length + 1) % 64
  let k := if r ≤ 56 then 56 - r else 120 - r
  msg ++ [128] ++ List.replicate k 0 ++ natToBytesBE 8 (msg.length * 8)

def toWords32 : Bytes → List Nat
  | b0 :: b1 :: b2 :: b3 :: rest =>
    (((b0 * 256 + b1) * 256 + b2) * 256 + b3) :: toWords32 rest
  | _ => []

/-- Message-schedule extension from 16 to 64 words. -/
def extendW (block : List Nat) : List Nat :=
  (List.range 48).foldl
    (fun w _ =>
      w ++ [add32 (add32 (ssig1 (w.getD (w.length - 2) 0)) (w.getD (w.length - 7) 0))
              (add32 (ssig0 (w.getD (w.length - 15) 0)) (w.getD (w.length - 16) 0))])
    block

/-- One round of the compression function; `kw` is `K[t] + W[t] mod 2^32`. -/
def shaRound (st : List Nat) (kw : Nat) : List Nat :=
  match st with
  | [a, b, c, d, e, f, g, h] =>
    let ch := (e &&& f) ^^^ ((e ^^^ 4294967295) &&& g)
    let maj := (a &&& b) ^^^ (a &&& c) ^^^ (b &&& c)
    let t1 := add32 (add32 h (bsig1 e)) (add32 ch kw)
    let t2 := add32 (bsig0 a) maj
    [add32 t1 t2, a, b, c, add32 d t1, e, f, g]
  | st => st

def shaCompress (h : List Nat) (block : List Nat) : List Nat :=
  let w := extendW block
  let st := (List.zipWith add32 shaK w).foldl shaRound h
  List.zipWith add32 h st

def shaBlocks : Nat → List Nat → List Nat → List Nat
  | _, h, [] => h
  | 0, h, _ => h
  | fuel+1, h, w :: ws =>
    shaBlocks fuel (shaCompress h ((w :: ws).take 16)) ((w :: ws).drop 16)

/-- SHA-256 digest (32 bytes) of a byte string. -/
def sha256Bytes (msg : Bytes) : Bytes :=
  let ws := toWords32 (shaPad msg)
  (shaBlocks ws.length shaH0 ws).foldr (fun x acc => natToBytesBE 4 x ++ acc) []

def hexDigit (n : Nat) : Nat := if n < 10 then 48 + n else 87 + n

/-- Lowercase hex bytes, as produced by `hex.EncodeToString`. -/
def bytesToHex (bs : Bytes) : Bytes :=
  bs.foldr (fun b acc => hexDigit (b / 16) :: hexDigit (b % 16) :: acc) []

/-- `CalculateContentHash` (validation.go): SHA-256 of the content, hex encoded. -/
def CalculateContentHash (content : Bytes) : Bytes := bytesToHex (sha256Bytes content)

/-! ### Base64 (the `encoding/base64` StdEncoding collaborator)

The decoder is lenient about non-zero trailing bits in the final quantum;
only well-formed quanta matter for the claims (the encoder never produces
non-canonical ones). -/

def b64Alphabet : Bytes :=
  ascii "ABCDEFGHIJKLMNOPQRSTUVWXYZabcdefghijklmnopqrstuvwxyz0123456789+/"

def b64Char (n : Nat) : Nat := b64Alphabet.getD n 0

def b64DecodeChar (c : Nat) : Option Nat := b64Alphabet.indexOf? c

def b64Encode : Bytes → Bytes
  | [] => []
  | [a] => [b64Char (a / 4), b64Char ((a % 4) * 16), 61, 61]
  | [a, b] => [b64Char (a / 4), b64Char ((a % 4) * 16 + b / 16), b64Char ((b % 16) * 4), 61]
  | a :: b :: c :: rest =>
    b64Char (a / 4) :: b64Char ((a % 4) * 16 + b / 16) ::
      b64Char ((b % 16) * 4 + c / 64) :: b64Char (c % 64) :: b64Encode rest

def b64Decode : Bytes → Option Bytes
  | [] => some []
  | c1 :: c2 :: c3 :: c4 :: rest =>
    match b64DecodeChar c1, b64DecodeChar c2 with
    | some s1, some s2 =>
      if c3 = 61 ∧ c4 = 61 ∧ rest = [] then
        some [s1 * 4 + s2 / 16]
      else if c4 = 61 ∧ rest = [] then
        match b64DecodeChar c3 with
        | some s3 => some [s1 * 4 + s2 / 16, (s2 % 16) * 16 + s3 / 4]
        | none => none
      else
        match b64DecodeChar c3, b64DecodeChar c4 with
        | some s3, some s4 =>
          (b64Decode rest).map
            (fun tl => (s1 * 4 + s2 / 16) :: ((s2 % 16) * 16 + s3 / 4) :: ((s3 % 4) * 64 + s4) :: tl)
        | _, _ => none
    | _, _ => none
  | _ => none

theorem b64Char_inv : ∀ s, s < 64 → b64DecodeChar (b64Char s) = some s := by decide

theorem b64Char_ne_pad : ∀ s, s < 64 → b64Char s ≠ 61 := by decide

theorem b64Decode_b64Encode : ∀ bs : Bytes, (∀ b ∈ bs, b < 256) →
    b64Decode (b64Encode bs) = some bs := by
  intro bs
  induction bs using b64Encode.induct with
  | case1 => intro _; rfl
  | case2 a =>
    intro hb
    have ha : a < 256 := hb a (by simp)
    have h1 : a / 4 < 64 := by omega
    have h2 : (a % 4) * 16 < 64 := by omega
    show b64Decode [b64Char (a / 4), b64Char ((a % 4) * 16), 61, 61] = some [a]
    rw [b64Decode, b64Char_inv _ h1, b64Char_inv _ h2]
    show some [a / 4 * 4 + ((a % 4) * 16) / 16] = some [a]
    refine congrArg some ?_
    have e1 : a / 4 * 4 + ((a % 4) * 16) / 16 = a := by omega
    rw [e1]
  | case3 a b =>
    intro hb
    have ha : a < 256 := hb a (by simp)
    have hb' : b < 256 := hb b (by simp)
    have h1 : a / 4 < 64 := by omega
    have h2 : (a % 4) * 16 + b / 16 < 64 := by omega
    have h3 : (b % 16) * 4 < 64 := by omega
    show b64Decode
        [b64Char (a / 4), b64Char ((a % 4) * 16 + b / 16), b64Char ((b % 16) * 4), 61] =
      some [a, b]
    rw [b64Decode, b64Char_inv _ h1, b64Char_inv _ h2, b64Char_inv _ h3]
    show (if b64Char ((b % 16) * 4) = 61 ∧ (61 : Nat) = 61 ∧ ([] : Bytes) = [] then
        some [a / 4 * 4 + ((a % 4) * 16 + b / 16) / 16]
      else
        some [a / 4 * 4 + ((a % 4) * 16 + b / 16) / 16,
          ((a % 4) * 16 + b / 16) % 16 * 16 + ((b % 16) * 4) / 4]) = some [a, b]
    rw [if_neg (fun hcon => b64Char_ne_pad _ h3 hcon.1)]
    refine congrArg some ?_
    have e1 : a / 4 * 4 + ((a % 4) * 16 + b / 16) / 16 = a := by omega
    have e2 : ((a % 4) * 16 + b / 16) % 16 * 16 + ((b % 16) * 4) / 4 = b := by omega
    rw [e1, e2]
  | case4 a b c rest ih =>
    intro hb
    have ha : a < 256 := hb a (by simp)
    have hb' : b < 256 := hb b (by simp)
    have hc : c < 256 := hb c (by simp)
    have hrest : ∀ x ∈ rest, x < 256 := fun x hx => hb x (by simp [hx])
    have h1 : a / 4 < 64 := by omega
    have h2 : (a % 4) * 16 + b / 16 < 64 := by omega
    have h3 : (b % 16) * 4 + c / 64 < 64 := by omega
    have h4 : c % 64 < 64 := by omega
    show b64Decode
        (b64Char (a / 4) :: b64Char ((a % 4) * 16 + b / 16) ::
          b64Char ((b % 16) * 4 + c / 64) :: b64Char (c % 64) :: b64Encode rest) =
      some (a :: b :: c :: rest)
    rw [b64Decode, b64Char_inv _ h1, b64Char_inv _ h2, b64Char_inv _ h3, b64Char_inv _ h4]
    show (if b64Char ((b % 16) * 4 + c / 64) = 61 ∧ b64Char (c % 64) = 61 ∧
            b64Encode rest = [] then
        some [a / 4 * 4 + ((a % 4) * 16 + b / 16) / 16]
      else if b64Char (c % 64) = 61 ∧ b64Encode rest = [] then
        some [a / 4 * 4 + ((a % 4) * 16 + b / 16) / 16,
          ((a % 4) * 16 + b / 16) % 16 * 16 + ((b % 16) * 4 + c / 64) / 4]
      else
        Option.map (fun tl => (a / 4 * 4 + ((a % 4) * 16 + b / 16) / 16) ::
            (((a % 4) * 16 + b / 16) % 16 * 16 + ((b % 16) * 4 + c / 64) / 4) ::
            (((b % 16) * 4 + c / 64) % 4 * 64 + c % 64) :: tl)
          (b64Decode (b64Encode rest))) = some (a :: b :: c :: rest)
    rw [if_neg (fun hcon => b64Char_ne_pad _ h3 hcon.1),
        if_neg (fun hcon => b64Char_ne_pad _ h4 hcon.1)]
    rw [ih hrest]
    show some ((a / 4 * 4 + ((a % 4) * 16 + b / 16) / 16) ::
        (((a % 4) * 16 + b / 16) % 16 * 16 + ((b % 16) * 4 + c / 64) / 4) ::
        (((b % 16) * 4 + c / 64) % 4 * 64 + c % 64) :: rest) = some (a :: b :: c :: rest)
    refine congrArg some ?_
    have e1 : a / 4 * 4 + ((a % 4) * 16 + b / 16) / 16 = a := by omega
    have e2 : ((a % 4) * 16 + b / 16) % 16 * 16 + ((b % 16) * 4 + c / 64) / 4 = b := by omega
    have e3 : ((b % 16) * 4 + c / 64) % 4 * 64 + c % 64 = c := by omega
    rw [e1, e2, e3]

/-! ### Content codec (`internal/core/compression.go`)

The gzip stream itself is produced/consumed by the `compress/gzip` standard
library; it is modelled as a parameter pair `gz`/`gunzip` (the repository's
code only composes it with base64 and the threshold policy).  A `gunzip`
result of `none` models a malformed gzip stream. -/

/-- `CompressionThreshold` (compression.go). -/
def CompressionThreshold : Nat := 1024

/-- `CompressContent` (compression.go): below the threshold store verbatim;
otherwise gzip + base64, keeping the compressed form only if strictly
shorter than the original. -/
def CompressContent (gz : Bytes → Bytes) (content : Bytes) : Bytes × Bool :=
  if content.length < CompressionThreshold then (content, false)
  else
    let compressed := b64Encode (gz content)
    if compressed.length < content.length then (compressed, true) else (content, false)

/-- `DecompressContent` (compression.go): identity if not compressed, else
base64 decode then gzip inflate. -/
def DecompressContent (gunzip : Bytes → Option Bytes) (content : Bytes) (compressed : Bool) :
    Except Bytes Bytes :=
  if compressed then
    match b64Decode content with
    | none => .error (ascii "illegal base64 data")
    | some data =>
      match gunzip data with
      | none => .error (ascii "gzip: malformed input")
      | some d => .ok d
  else .ok content

/-! ### Data model (`internal/core/registry.go`) -/

structure Variable where
  type : Bytes
  required : Bool
  default : Bytes
  description : Bytes
deriving DecidableEq

structure Mapping where
  find : Bytes
  replace : Bytes
deriving DecidableEq

structure FileSpec where
  path : Bytes
  template : Bool
  content : Bytes
  size : Int
  hash : Bytes
  compressed : Bool
  mappings : List Mapping
deriving DecidableEq

/-- `EnvVariable`; the Go field `Example` is `exampleValue` here because
`example` is a Lean keyword. -/
structure EnvVariable where
  name : Bytes
  description : Bytes
  exampleValue : Bytes
deriving DecidableEq

/-- `TemplateSchema`.  The Go `Variables` field is a `map[string]Variable`
that can be nil; it is modelled as an optional association list (`none` is
the nil map; iteration order of a Go map is unspecified, so list order fixes
only which message is reported first, never whether validation succeeds).
The field is named `varsMap` because `variables` is a Lean command token. -/
structure TemplateSchema where
  name : Bytes
  type : Bytes
  version : Bytes
  description : Bytes
  varsMap : Option (List (Bytes × Variable))
  files : List FileSpec
  hooks : List (Bytes × List Bytes)
  envConfig : List EnvVariable
  hash : Bytes
deriving DecidableEq

structure TemplateVariables where
  ProjectName : Bytes
  GitHubRepo : Bytes
  Author : Bytes
  Description : Bytes
deriving DecidableEq

/-! ### Schema validation (`internal/core/validation.go`)

Errors are the `fmt.Errorf` message bytes; `none` is success. -/

/-- Decimal ASCII digits of a natural number (`%d`). -/
def natDecimalAux : Nat → Nat → Bytes
  | 0, _ => []
  | f+1, n => if n < 10 then [48 + n] else natDecimalAux f (n / 10) ++ [48 + n % 10]

def natDecimal (n : Nat) : Bytes := natDecimalAux (n + 1) n

/-- `validateBasicFields`. -/
def validateBasicFields (s : TemplateSchema) : Option Bytes :=
  if s.name = [] then some (ascii "schema name is required")
  else if s.type = [] then some (ascii "schema type is required")
  else if s.version = [] then some (ascii "schema version is required")
  else none

def checkVariableTypes : List (Bytes × Variable) → Option Bytes
  | [] => none
  | (nm, v) :: rest =>
    if v.type = [] then some (ascii "variable " ++ nm ++ ascii " must have a type")
    else checkVariableTypes rest

/-- `validateSchemaVariables`: nil map is an error, then every declared
variable must carry a non-empty type. -/
def validateSchemaVariables (s : TemplateSchema) : Option Bytes :=
  match s.varsMap with
  | none => some (ascii "schema variables is required")
  | some vs => checkVariableTypes vs

/-- `validateFileHash`: skip an empty hash; otherwise decompress if needed,
recompute SHA-256 over the uncompressed bytes and require exact equality. -/
def validateFileHash (gunzip : Bytes → Option Bytes) (file : FileSpec) : Option Bytes :=
  if file.hash = [] then none
  else
    match (if file.compressed then DecompressContent gunzip file.content file.compressed
           else .ok file.content) with
    | .error _ =>
      some (ascii "file " ++ file.path ++ ascii " failed to decompress for validation")
    | .ok content =>
      if file.hash ≠ CalculateContentHash content then
        some (ascii "file " ++ file.path ++ ascii " hash mismatch: expected " ++
          file.hash ++ ascii ", got " ++ CalculateContentHash content)
      else none

/-- `validateFileSpec`. -/
def validateFileSpec (gunzip : Bytes → Option Bytes) (file : FileSpec) (index : Nat) :
    Option Bytes :=
  if file.path = [] then
    some (ascii "file " ++ natDecimal index ++ ascii " must have a path")
  else if file.content = [] then
    some (ascii "file " ++ file.path ++ ascii " must have content")
  else validateFileHash gunzip file

def validateFilesFrom (gunzip : Bytes → Option Bytes) : List FileSpec → Nat → Option Bytes
  | [], _ => none
  | f :: rest, i =>
    match validateFileSpec gunzip f i with
    | some e => some e
    | none => validateFilesFrom gunzip rest (i + 1)

/-- `validateSchemaFiles`: at least one file, then per-file checks in order. -/
def validateSchemaFiles (gunzip : Bytes → Option Bytes) (s : TemplateSchema) : Option Bytes :=
  if s.files.length = 0 then some (ascii "schema must contain at least one file")
  else validateFilesFrom gunzip s.files 0

/-- `ValidateSchema`: basic fields, then variables, then files (short-circuit). -/
def ValidateSchema (gunzip : Bytes → Option Bytes) (s : TemplateSchema) : Option Bytes :=
  match validateBasicFields s with
  | some e => some e
  | none =>
    match validateSchemaVariables s with
    | some e => some e
    | none => validateSchemaFiles gunzip s

/-- Body of the `range` loop of `ValidateVariables`: the four well-known
names are special-cased; `Author`/`Description` accept a non-empty default
in place of a binding, `ProjectName`/`GitHubRepo` do not consult the
default; all other names are never required-checked. -/
def checkRequired (v : TemplateVariables) : List (Bytes × Variable) → Option Bytes
  | [] => none
  | (nm, vr) :: rest =>
    if vr.required then
      if nm = ascii "ProjectName" then
        if v.ProjectName = [] then some (ascii "ProjectName is required")
        else checkRequired v rest
      else if nm = ascii "GitHubRepo" then
        if v.GitHubRepo = [] then some (ascii "GitHubRepo is required")
        else checkRequired v rest
      else if nm = ascii "Author" then
        if v.Author = [] ∧ vr.default = [] then some (ascii "author is required")
        else checkRequired v rest
      else if nm = ascii "Description" then
        if v.Description = [] ∧ vr.default = [] then some (ascii "description is required")
        else checkRequired v rest
      else checkRequired v rest
    else checkRequired v rest

/-- `ValidateVariables` (a nil map means nothing is checked). -/
def ValidateVariables (s : TemplateSchema) (v : TemplateVariables) : Option Bytes :=
  checkRequired v (s.varsMap.getD [])

/-! ### Claim C7: compression round-trip -/

/-- C7: for all content, decompressing the result of compression (with its
returned `compressed` flag) yields the original content exactly, and the
SHA-256 hash computed over the pre-compression bytes equals the hash
recomputed over the bytes obtained after decompression.  The gzip stream
codec is the `compress/gzip` collaborator, supplied as `gz`/`gunzip` with
its library contract (`gunzip` inverts `gz`, gzip output is bytes). -/
theorem compress_decompress_roundtrip (gz : Bytes → Bytes) (gunzip : Bytes → Option Bytes)
    (hinv : ∀ x, gunzip (gz x) = some x)
    (content : Bytes) (hbytes : ∀ b ∈ gz content, b < 256) :
    DecompressContent gunzip (CompressContent gz content).1 (CompressContent gz content).2 =
      .ok content ∧
    (∀ d, DecompressContent gunzip (CompressContent gz content).1
        (CompressContent gz content).2 = .ok d →
      CalculateContentHash content = CalculateContentHash d) := by
  have hmain : DecompressContent gunzip (CompressContent gz content).1
      (CompressContent gz content).2 = .ok content := by
    unfold CompressContent
    by_cases hlen : content.length < CompressionThreshold
    · simp [hlen, DecompressContent]
    · simp only [hlen, if_false]
      by_cases hshort : (b64Encode (gz content)).length < content.length
      · simp only [hshort, if_true]
        show DecompressContent gunzip (b64Encode (gz content)) true = .ok content
        unfold DecompressContent
        rw [if_pos rfl, b64Decode_b64Encode (gz content) hbytes]
        simp [hinv]
      · simp [hshort, DecompressContent]
  refine ⟨hmain, fun d hd => ?_⟩
  rw [hmain] at hd
  cases hd
  rfl

/-- Witness for C7 at a concrete codec and content. -/
theorem compress_decompress_roundtrip_witness :
    DecompressContent (fun b => some b)
      (CompressContent (fun b => b) (ascii "hi")).1
      (CompressContent (fun b => b) (ascii "hi")).2 = .ok (ascii "hi") :=
  (compress_decompress_roundtrip (fun b => b) (fun b => some b) (fun _ => rfl)
    (ascii "hi") (by decide)).1

/-! ### Claim C2: generation-time required-variable validation -/

/-- Schema exhibiting the C2 counterexample: `ProjectName` is required and
declares the non-empty default `"my-app"`. -/
def schemaC2 : TemplateSchema :=
  { name := ascii "frontend-react-template"
    type := ascii "frontend"
    version := ascii "1.0.0"
    description := []
    varsMap := some [(ascii "ProjectName",
      { type := ascii "string", required := true,
        default := ascii "my-app", description := [] })]
    files := []
    hooks := []
    envConfig := []
    hash := [] }

/-- Bindings with an empty `ProjectName`. -/
def varsC2 : TemplateVariables :=
  { ProjectName := [], GitHubRepo := ascii "user/repo"
    Author := ascii "Developer", Description := ascii "desc" }

/-- C2 counterexample: the claim says validation succeeds whenever the bound
value is non-empty OR a non-empty default exists; but for a required
`ProjectName` with default `"my-app"` and empty binding, `ValidateVariables`
fails — the `ProjectName`/`GitHubRepo` branches never consult the default. -/
theorem validateVariables_default_cex :
    schemaC2.varsMap = some [(ascii "ProjectName",
      { type := ascii "string", required := true,
        default := ascii "my-app", description := [] })] ∧
    (ascii "my-app" : Bytes) ≠ [] ∧ varsC2.ProjectName = [] ∧
    ValidateVariables schemaC2 varsC2 = some (ascii "ProjectName is required") := by
  refine ⟨rfl, by decide, rfl, by decide⟩

theorem checkRequired_eq_none_iff (v : TemplateVariables) :
    ∀ l : List (Bytes × Variable), checkRequired v l = none ↔
      ∀ p ∈ l, p.2.required = true →
        (p.1 = ascii "ProjectName" → v.ProjectName ≠ []) ∧
        (p.1 = ascii "GitHubRepo" → v.GitHubRepo ≠ []) ∧
        (p.1 = ascii "Author" → v.Author ≠ [] ∨ p.2.default ≠ []) ∧
        (p.1 = ascii "Description" → v.Description ≠ [] ∨ p.2.default ≠ []) := by
  have nPG : (ascii "ProjectName" : Bytes) ≠ ascii "GitHubRepo" := by decide
  have nPA : (ascii "ProjectName" : Bytes) ≠ ascii "Author" := by decide
  have nPD : (ascii "ProjectName" : Bytes) ≠ ascii "Description" := by decide
  have nGP : (ascii "GitHubRepo" : Bytes) ≠ ascii "ProjectName" := by decide
  have nGA : (ascii "GitHubRepo" : Bytes) ≠ ascii "Author" := by decide
  have nGD : (ascii "GitHubRepo" : Bytes) ≠ ascii "Description" := by decide
  have nAP : (ascii "Author" : Bytes) ≠ ascii "ProjectName" := by decide
  have nAG : (ascii "Author" : Bytes) ≠ ascii "GitHubRepo" := by decide
  have nAD : (ascii "Author" : Bytes) ≠ ascii "Description" := by decide
  have nDP : (ascii "Description" : Bytes) ≠ ascii "ProjectName" := by decide
  have nDG : (ascii "Description" : Bytes) ≠ ascii "GitHubRepo" := by decide
  have nDA : (ascii "Description" : Bytes) ≠ ascii "Author" := by decide
  intro l
  induction l with
  | nil => simp [checkRequired]
  | cons hd rest ih =>
    obtain ⟨nm, vr⟩ := hd
    by_cases hreq : vr.required
    · by_cases h1 : nm = ascii "ProjectName"
      · subst h1
        by_cases hpn : v.ProjectName = [] <;>
          simp [checkRequired, hreq, hpn, ih, nPG, nPA, nPD]
      · by_cases h2 : nm = ascii "GitHubRepo"
        · subst h2
          by_cases hgr : v.GitHubRepo = [] <;>
            simp [checkRequired, hreq, h1, hgr, ih, nGP, nGA, nGD]
        · by_cases h3 : nm = ascii "Author"
          · subst h3
            by_cases hau : v.Author = [] ∧ vr.default = [] <;>
              simp [checkRequired, hreq, h1, h2, hau, ih, nAP, nAG, nAD] <;> tauto
          · by_cases h4 : nm = ascii "Description"
            · subst h4
              by_cases hde : v.Description = [] ∧ vr.default = [] <;>
                simp [checkRequired, hreq, h1, h2, h3, hde, ih, nDP, nDG, nDA] <;> tauto
            · simp [checkRequired, hreq, h1, h2, h3, h4, ih]
    · simp [checkRequired, hreq, ih]

/-- C2 amended: required-variable validation succeeds iff every required
variable among the four well-known names has a non-empty binding — where
only `Author` and `Description` may fall back on a non-empty default;
`ProjectName` and `GitHubRepo` must be bound non-empty regardless of any
default, and other names are never checked. -/
theorem validateVariables_amended (s : TemplateSchema) (v : TemplateVariables) :
    ValidateVariables s v = none ↔
      ∀ p ∈ s.varsMap.getD [], p.2.required = true →
        (p.1 = ascii "ProjectName" → v.ProjectName ≠ []) ∧
        (p.1 = ascii "GitHubRepo" → v.GitHubRepo ≠ []) ∧
        (p.1 = ascii "Author" → v.Author ≠ [] ∨ p.2.default ≠ []) ∧
        (p.1 = ascii "Description" → v.Description ≠ [] ∨ p.2.default ≠ []) :=
  checkRequired_eq_none_iff v (s.varsMap.getD [])

/-- Witness for C2 amended: a schema whose required `Author` has only a
default validates against an empty `Author` binding. -/
theorem validateVariables_amended_witness :
    ValidateVariables
      { schemaC2 with varsMap := some [(ascii "Author",
          { type := ascii "string", required := true,
            default := ascii "Developer", description := [] })] }
      { varsC2 with ProjectName := ascii "p", Author := [] } = none := by
  rw [validateVariables_amended]
  decide

/-! ### Claim C5: schema validation order -/

/-- C5: `ValidateSchema` checks its invariants in the fixed order (identity
fields; variables map non-nil and typed; at least one file; per-file checks)
and short-circuits on the first violation; in particular a schema with an
empty name reports the name-missing error even if it also has no files. -/
theorem validateSchema_first_error (gunzip : Bytes → Option Bytes) (s : TemplateSchema) :
    (s.name = [] → ValidateSchema gunzip s = some (ascii "schema name is required")) ∧
    (s.name ≠ [] → s.type = [] →
      ValidateSchema gunzip s = some (ascii "schema type is required")) ∧
    (s.name ≠ [] → s.type ≠ [] → s.version = [] →
      ValidateSchema gunzip s = some (ascii "schema version is required")) ∧
    (s.name ≠ [] → s.type ≠ [] → s.version ≠ [] → s.varsMap = none →
      ValidateSchema gunzip s = some (ascii "schema variables is required")) ∧
    (∀ vs, s.name ≠ [] → s.type ≠ [] → s.version ≠ [] → s.varsMap = some vs →
      checkVariableTypes vs = none → s.files = [] →
      ValidateSchema gunzip s = some (ascii "schema must contain at least one file")) := by
  refine ⟨?_, ?_, ?_, ?_, ?_⟩
  · intro h
    simp [ValidateSchema, validateBasicFields, h]
  · intro h1 h2
    simp [ValidateSchema, validateBasicFields, h1, h2]
  · intro h1 h2 h3
    simp [ValidateSchema, validateBasicFields, h1, h2, h3]
  · intro h1 h2 h3 h4
    simp [ValidateSchema, validateBasicFields, validateSchemaVariables, h1, h2, h3, h4]
  · intro vs h1 h2 h3 h4 h5 h6
    simp [ValidateSchema, validateBasicFields, validateSchemaVariables,
      validateSchemaFiles, h1, h2, h3, h4, h5, h6]

/-- Witness for C5: a schema with empty name and no files reports the
name-missing error. -/
theorem validateSchema_first_error_witness :
    (TemplateSchema.mk [] (ascii "frontend") (ascii "1.0.0") [] (some []) [] [] [] []).files
        = [] ∧
    ValidateSchema (fun _ => none)
      (TemplateSchema.mk [] (ascii "frontend") (ascii "1.0.0") [] (some []) [] [] [] []) =
      some (ascii "schema name is required") :=
  ⟨rfl, (validateSchema_first_error (fun _ => none) _).1 rfl⟩

/-! ### Claim C6: hash-mismatch detection -/

/-- Replace the stored content of the `i`-th file, leaving its hash alone. -/
def setContent : List FileSpec → Nat → Bytes → List FileSpec
  | [], _, _ => []
  | f :: rest, 0, c => { f with content := c } :: rest
  | f :: rest, i+1, c => f :: setContent rest i c

theorem setContent_length (c : Bytes) :
    ∀ (l : List FileSpec) (i : Nat), (setContent l i c).length = l.length := by
  intro l
  induction l with
  | nil => intro i; cases i <;> rfl
  | cons f rest ih =>
    intro i
    cases i with
    | zero => rfl
    | succ i => simpa [setContent] using ih i

theorem validateFilesFrom_mutate (gunzip : Bytes → Option Bytes) (c' : Bytes) (hc : c' ≠ []) :
    ∀ (files : List FileSpec) (i : Nat) (hi : i < files.length) (i0 : Nat),
      validateFilesFrom gunzip files i0 = none →
      (files.get ⟨i, hi⟩).compressed = false →
      (files.get ⟨i, hi⟩).hash ≠ [] →
      (files.get ⟨i, hi⟩).hash ≠ CalculateContentHash c' →
      validateFilesFrom gunzip (setContent files i c') i0 =
        some (ascii "file " ++ (files.get ⟨i, hi⟩).path ++ ascii " hash mismatch: expected " ++
          (files.get ⟨i, hi⟩).hash ++ ascii ", got " ++ CalculateContentHash c') := by
  intro files
  induction files with
  | nil => intro i hi; simp at hi
  | cons f rest ih =>
    intro i hi i0 hpass hcomp hhne hdiff
    have hhead : validateFileSpec gunzip f i0 = none := by
      by_cases h : validateFileSpec gunzip f i0 = none
      · exact h
      · obtain ⟨e, he⟩ := Option.ne_none_iff_exists'.mp h
        rw [validateFilesFrom, he] at hpass
        exact absurd hpass (by simp)
    have htail : validateFilesFrom gunzip rest (i0 + 1) = none := by
      rw [validateFilesFrom, hhead] at hpass
      exact hpass
    cases i with
    | zero =>
      have hpath : f.path ≠ [] := by
        intro hp
        rw [validateFileSpec, if_pos hp] at hhead
        exact absurd hhead (by simp)
      simp only [List.get] at hcomp hhne hdiff
      show validateFilesFrom gunzip ({ f with content := c' } :: rest) i0 = _
      rw [validateFilesFrom]
      have hmut : validateFileSpec gunzip { f with content := c' } i0 =
          some (ascii "file " ++ f.path ++ ascii " hash mismatch: expected " ++
            f.hash ++ ascii ", got " ++ CalculateContentHash c') := by
        rw [validateFileSpec, if_neg (by exact hpath), if_neg (by exact hc),
          validateFileHash, if_neg (by exact hhne),
          show ({ f with content := c' } : FileSpec).compressed = false from hcomp]
        show (if f.hash ≠ CalculateContentHash c' then
            some (ascii "file " ++ f.path ++ ascii " hash mismatch: expected " ++
              f.hash ++ ascii ", got " ++ CalculateContentHash c')
          else none) = _
        rw [if_pos hdiff]
      rw [hmut]
      rfl
    | succ i =>
      have hi' : i < rest.length := by simpa using hi
      simp only [List.get] at hcomp hhne hdiff ⊢
      show validateFilesFrom gunzip (f :: setContent rest i c') i0 = _
      rw [validateFilesFrom, hhead]
      exact ih i hi' (i0 + 1) htail hcomp hhne hdiff

/-- C6: for every schema that validates, overwriting one uncompressed
FileSpec's stored content with a different non-empty value (without updating
its stored non-empty hash) makes `ValidateSchema` fail with a hash-mismatch
error that names that file's path, because validation recomputes SHA-256
over the stored bytes and requires exact equality with the stored hash.
`hdiff` (the recomputed digest differs) is the cryptographic reading of
`_hne` (the content differs): SHA-256 is collision-free in practice but not
provably so, hence the digest inequality is taken as the hypothesis. -/
theorem hash_mismatch_detected (gunzip : Bytes → Option Bytes) (s : TemplateSchema)
    (hvalid : ValidateSchema gunzip s = none)
    (i : Nat) (hi : i < s.files.length) (c' : Bytes) (hc : c' ≠ [])
    (_hne : c' ≠ (s.files.get ⟨i, hi⟩).content)
    (hcomp : (s.files.get ⟨i, hi⟩).compressed = false)
    (hhne : (s.files.get ⟨i, hi⟩).hash ≠ [])
    (hdiff : (s.files.get ⟨i, hi⟩).hash ≠ CalculateContentHash c') :
    ValidateSchema gunzip { s with files := setContent s.files i c' } =
      some (ascii "file " ++ (s.files.get ⟨i, hi⟩).path ++ ascii " hash mismatch: expected " ++
        (s.files.get ⟨i, hi⟩).hash ++ ascii ", got " ++ CalculateContentHash c') := by
  have hbasic : validateBasicFields s = none := by
    by_cases h : validateBasicFields s = none
    · exact h
    · obtain ⟨e, he⟩ := Option.ne_none_iff_exists'.mp h
      rw [ValidateSchema, he] at hvalid
      exact absurd hvalid (by simp)
  have hvars : validateSchemaVariables s = none := by
    by_cases h : validateSchemaVariables s = none
    · exact h
    · obtain ⟨e, he⟩ := Option.ne_none_iff_exists'.mp h
      rw [ValidateSchema, hbasic, he] at hvalid
      exact absurd hvalid (by simp)
  have hfiles : validateSchemaFiles gunzip s = none := by
    rw [ValidateSchema, hbasic, hvars] at hvalid
    exact hvalid
  have hlen : s.files.length ≠ 0 := by omega
  have hfrom : validateFilesFrom gunzip s.files 0 = none := by
    rw [validateSchemaFiles, if_neg hlen] at hfiles
    exact hfiles
  have hbasic' : validateBasicFields { s with files := setContent s.files i c' } = none := hbasic
  have hvars' : validateSchemaVariables { s with files := setContent s.files i c' } = none :=
    hvars
  rw [ValidateSchema, hbasic', hvars', validateSchemaFiles]
  have hlen' : (setContent s.files i c').length ≠ 0 := by
    rw [setContent_length]
    exact hlen
  rw [if_neg hlen']
  exact validateFilesFrom_mutate gunzip c' hc s.files i hi 0 hfrom hcomp hhne hdiff

/-- Witness for C6: a concrete valid one-file schema (content `"hello"`,
correct stored digest) mutated to `"world"` fails with the hash-mismatch
error naming `README.md`. -/
def schemaC6 : TemplateSchema :=
  { name := ascii "frontend-react-template"
    type := ascii "frontend"
    version := ascii "1.0.0"
    description := []
    varsMap := some []
    files := [{ path := ascii "README.md", template := false
                content := ascii "hello", size := 5
                hash := ascii "2cf24dba5fb0a30e26e83b2ac5b9e29e1b161e5c1fa7425e73043362938b9824"
                compressed := false, mappings := [] }]
    hooks := []
    envConfig := []
    hash := [] }

theorem hash_mismatch_detected_witness :
    ValidateSchema (fun _ => none)
        { schemaC6 with files := setContent schemaC6.files 0 (ascii "world") } =
      some (ascii "file " ++ ascii "README.md" ++ ascii " hash mismatch: expected " ++
        ascii "2cf24dba5fb0a30e26e83b2ac5b9e29e1b161e5c1fa7425e73043362938b9824" ++
        ascii ", got " ++ CalculateContentHash (ascii "world")) :=
  hash_mismatch_detected (fun _ => none) schemaC6 (by decide) 0 (by decide)
    (ascii "world") (by decide) (by decide) (by decide) (by decide) (by decide)

/-! ### Skip rules (`internal/templates/common.go` and the template types) -/

/-- Boolean substring scan, modelling `strings.Contains s sub` via
`containsSub sub s`. -/
def containsSubF (sub : Bytes) : Bytes → Bool
  | [] => sub.isEmpty
  | a :: rest => sub.isPrefixOf (a :: rest) || containsSubF sub rest

theorem containsSubF_iff_infix (sub : Bytes) :
    ∀ s : Bytes, containsSubF sub s = true ↔ sub <:+: s := by
  intro s
  induction s with
  | nil => simp [containsSubF, List.isEmpty_iff]
  | cons a rest ih =>
    simp [containsSubF, List.isPrefixOf_iff_prefix, ih, List.infix_cons_iff]

/-- Go `strings.Contains s sub`. -/
def strContains (s sub : Bytes) : Bool := containsSubF sub s

theorem strContains_iff (s sub : Bytes) : strContains s sub = true ↔ sub <:+: s :=
  containsSubF_iff_infix sub s

/-- `path/filepath.Base` on a Unix host (no volume names; separator `/`). -/
def pathBase (p : Bytes) : Bytes :=
  if p = [] then ascii "."
  else
    let q := (p.reverse.dropWhile (fun b => b == 47)).reverse
    if q = [] then [47]
    else (q.reverse.takeWhile (fun b => !(b == 47))).reverse

/-- `shouldSkipCommon` (common.go): retain anything under `.github`; skip
`.git`; skip other hidden dotfiles; skip the given directories anywhere in
the path; skip `*.log`. -/
def shouldSkipCommon (path : Bytes) (skipDirs : List Bytes) : Bool :=
  if strContains path (ascii ".github") then false
  else if strContains path (ascii ".git") && !(strContains path (ascii ".github")) then true
  else
    let baseName := pathBase path
    if (ascii ".").isPrefixOf baseName && !(baseName == ascii ".github")
        && !(strContains path (ascii ".github")) then true
    else if skipDirs.any (fun dir =>
        strContains path ([47] ++ dir ++ [47]) || ([47] ++ dir).isSuffixOf path
          || (dir ++ [47]).isPrefixOf path) then true
    else if (ascii ".log").isSuffixOf baseName then true
    else false

/-- `FrontendTemplate.ShouldSkip` (frontend.go). -/
def FrontendTemplate.ShouldSkip (path : Bytes) : Bool :=
  shouldSkipCommon path [ascii "node_modules", ascii "dist", ascii "build", ascii "coverage"]

/-- `GoAPITemplate.ShouldSkip` (goapi.go): plain substring match against a
fixed pattern list. -/
def GoAPITemplate.ShouldSkip (path : Bytes) : Bool :=
  [ascii ".git", ascii ".DS_Store", ascii "vendor", ascii "bin", ascii "tmp",
   ascii "*.log", ascii ".env", ascii "coverage.out"].any
    (fun pat => strContains path pat)

/-- `FullstackTemplate.ShouldSkip` (fullstack.go). -/
def FullstackTemplate.ShouldSkip (path : Bytes) : Bool :=
  let baseName := pathBase path
  if strContains path (ascii "node_modules") then true
  else if baseName == ascii "api" && !((ascii ".go").isSuffixOf path) then true
  else if [ascii ".dockerignore", ascii ".gitignore", ascii ".golangci.yml",
      ascii ".golangci.yaml", ascii ".env.example"].any (fun d => baseName == d) then false
  else if strContains path (ascii ".claude") then false
  else shouldSkipCommon path
    [ascii "vendor", ascii "bin", ascii "tmp", ascii "coverage", ascii "dist", ascii "build"]

/-! ### Claim C3: dotfile carve-outs of the skip rules -/

/-- C3 counterexample: the claim says every concrete template type retains
`.github` paths and `.env.example`; but the frontend rule skips
`.env.example` (generic hidden-dotfile rule, no carve-out in
`shouldSkipCommon`), and the go-api rule skips both `.env.example` (the
`".env"` pattern matches it) and `.github` paths (the `".git"` substring
pattern matches `.github`). -/
theorem shouldSkip_carveout_cex :
    FrontendTemplate.ShouldSkip (ascii ".env.example") = true ∧
    GoAPITemplate.ShouldSkip (ascii ".env.example") = true ∧
    GoAPITemplate.ShouldSkip (ascii ".github/workflows/ci.yml") = true := by
  refine ⟨by decide, by decide, by decide⟩

/-- C3 amended: the carve-outs hold only partially.  Frontend (and, off the
node_modules/api special cases, fullstack) retains every path containing
`.github`; fullstack retains `.env.example` through its explicit dotfile
list; frontend skips `.env.example`; go-api skips both `.github` paths and
`.env.example`; and all three types skip version-control metadata
(`.git`), dependency caches and build output. -/
theorem shouldSkip_carveout_amended :
    (∀ p : Bytes, (ascii ".github") <:+: p → FrontendTemplate.ShouldSkip p = false) ∧
    FullstackTemplate.ShouldSkip (ascii ".github/workflows/ci.yml") = false ∧
    FullstackTemplate.ShouldSkip (ascii ".env.example") = false ∧
    FrontendTemplate.ShouldSkip (ascii ".env.example") = true ∧
    GoAPITemplate.ShouldSkip (ascii ".github/workflows/ci.yml") = true ∧
    GoAPITemplate.ShouldSkip (ascii ".env.example") = true ∧
    FrontendTemplate.ShouldSkip (ascii ".git/config") = true ∧
    FullstackTemplate.ShouldSkip (ascii ".git/config") = true ∧
    GoAPITemplate.ShouldSkip (ascii ".git/config") = true ∧
    FrontendTemplate.ShouldSkip (ascii "node_modules/react/index.js") = true ∧
    FullstackTemplate.ShouldSkip (ascii "node_modules/react/index.js") = true ∧
    GoAPITemplate.ShouldSkip (ascii "vendor/lib/mod.go") = true ∧
    FrontendTemplate.ShouldSkip (ascii "dist/main.js") = true ∧
    FullstackTemplate.ShouldSkip (ascii "build/out.bin") = true ∧
    GoAPITemplate.ShouldSkip (ascii "bin/app") = true := by
  refine ⟨?_, by decide, by decide, by decide, by decide, by decide, by decide, by decide,
    by decide, by decide, by decide, by decide, by decide, by decide, by decide⟩
  intro p hp
  have hc : strContains p (ascii ".github") = true := (strContains_iff _ _).mpr hp
  unfold FrontendTemplate.ShouldSkip shouldSkipCommon
  rw [hc]
  rfl

/-- Witness for C3 amended at a concrete `.github` path. -/
theorem shouldSkip_carveout_amended_witness :
    FrontendTemplate.ShouldSkip (ascii ".github/dependabot.yml") = false :=
  shouldSkip_carveout_amended.1 (ascii ".github/dependabot.yml") (by decide)

/-! ### Schema hash (`calculateSchemaHash`, identical across the template
types in frontend.go / goapi.go / fullstack.go) -/

/-- `calculateSchemaHash` as written in the source: a `strings.Builder`
accumulation of name, type, version and each file's path and hash in walk
order, then SHA-256 hex. -/
def calculateSchemaHash (s : TemplateSchema) : Bytes :=
  bytesToHex (sha256Bytes
    (s.files.foldl (fun acc f => acc ++ f.path ++ f.hash) (s.name ++ s.type ++ s.version)))

/-- The schema-hash input as the spec words it: SHA-256 over the
concatenation of name + type + version + each FileSpec's (path, hash). -/
def specSchemaHash (s : TemplateSchema) : Bytes :=
  bytesToHex (sha256Bytes
    (s.name ++ s.type ++ s.version ++ (s.files.map (fun f => f.path ++ f.hash)).flatten))

/-! ### Claim C4: the schema hash and what it depends on -/

def fileC4 : FileSpec :=
  { path := ascii "README.md", template := false, content := ascii "x", size := 1
    hash := [], compressed := false, mappings := [] }

def schemaC4a : TemplateSchema :=
  { name := ascii "ab", type := ascii "c", version := ascii "1.0.0", description := []
    varsMap := some [], files := [fileC4], hooks := [], envConfig := [], hash := [] }

def schemaC4b : TemplateSchema :=
  { schemaC4a with name := ascii "a", type := ascii "bc" }

/-- C4 counterexample: the claim's "changes if ... the identity fields
change" direction fails.  The concatenation is not delimited, so
name `"ab"`/type `"c"` and name `"a"`/type `"bc"` feed identical bytes to
SHA-256: both identity fields differ yet the schema hashes coincide. -/
theorem schemaHash_concat_cex :
    schemaC4a.name ≠ schemaC4b.name ∧ schemaC4a.type ≠ schemaC4b.type ∧
    schemaC4a.version = schemaC4b.version ∧ schemaC4a.files = schemaC4b.files ∧
    calculateSchemaHash schemaC4a = calculateSchemaHash schemaC4b := by
  refine ⟨by decide, by decide, rfl, rfl, ?_⟩
  exact congrArg (fun bs => bytesToHex (sha256Bytes bs))
    (by decide : schemaC4a.files.foldl (fun acc f => acc ++ f.path ++ f.hash)
        (schemaC4a.name ++ schemaC4a.type ++ schemaC4a.version) =
      schemaC4b.files.foldl (fun acc f => acc ++ f.path ++ f.hash)
        (schemaC4b.name ++ schemaC4b.type ++ schemaC4b.version))

theorem foldl_append_eq_join (files : List FileSpec) :
    ∀ acc : Bytes, files.foldl (fun acc f => acc ++ f.path ++ f.hash) acc =
      acc ++ (files.map (fun f => f.path ++ f.hash)).flatten := by
  induction files with
  | nil => intro acc; simp
  | cons f rest ih =>
    intro acc
    rw [List.foldl_cons, ih]
    simp [List.append_assoc]

/-- C4 amended: the whole-schema hash equals SHA-256 of the concatenation of
name, type, version and each file's (path, hash) in walk order, and is fully
determined by those fields — it is unchanged whenever identity, version and
the per-file (path, hash) sequence are unchanged (in particular it ignores
contents, description, hooks).  The converse ("changes if they change")
fails because the concatenation is undelimited (see the counterexample). -/
theorem schemaHash_amended :
    (∀ s : TemplateSchema, calculateSchemaHash s = specSchemaHash s) ∧
    (∀ s₁ s₂ : TemplateSchema, s₁.name = s₂.name → s₁.type = s₂.type →
      s₁.version = s₂.version →
      s₁.files.map (fun f => (f.path, f.hash)) = s₂.files.map (fun f => (f.path, f.hash)) →
      calculateSchemaHash s₁ = calculateSchemaHash s₂) := by
  have hspec : ∀ s : TemplateSchema, calculateSchemaHash s = specSchemaHash s := by
    intro s
    unfold calculateSchemaHash specSchemaHash
    rw [foldl_append_eq_join]
  refine ⟨hspec, fun s₁ s₂ hn ht hv hf => ?_⟩
  rw [hspec s₁, hspec s₂]
  unfold specSchemaHash
  have hmaps : s₁.files.map (fun f => f.path ++ f.hash) =
      s₂.files.map (fun f => f.path ++ f.hash) := by
    have h₁ : ∀ l : List FileSpec, l.map (fun f => f.path ++ f.hash) =
        (l.map (fun f => (f.path, f.hash))).map (fun pr => pr.1 ++ pr.2) := by
      intro l
      rw [List.map_map]
      rfl
    rw [h₁, h₁, hf]
  rw [hn, ht, hv, hmaps]

/-- Witness for C4 amended: the hash ignores description, stored content and
the stored whole-schema hash field. -/
theorem schemaHash_amended_witness :
    calculateSchemaHash schemaC4a =
      calculateSchemaHash { schemaC4a with description := ascii "other", hash := ascii "ffff" } :=
  schemaHash_amended.2 schemaC4a
    { schemaC4a with description := ascii "other", hash := ascii "ffff" }
    rfl rfl rfl rfl

/-! ### Generator templating pipeline (`internal/generate/generator.go`)

`processTemplatedFile` applies, in order: mapping substitution, protection
of the nine known substitution expressions behind placeholder tokens,
escaping of all remaining Go-template delimiters behind sentinel tokens,
restoration of the placeholders, parse + execute via `text/template` with
the case-transform `FuncMap`, and un-escaping of the sentinels. -/

/-- The fixed vocabulary of substitution expressions. -/
inductive KnownExpr
  | projectName | githubRepo | author | description
  | pnKebab | pnSnake | pnUpper | pnLower | pnTitle
deriving DecidableEq

/-- Left Go-template delimiter bytes (two `0x7b`). -/
def lb : Bytes := [123, 123]

/-- Right Go-template delimiter bytes (two `0x7d`). -/
def rb : Bytes := [125, 125]

/-- The literal text of each known substitution expression. -/
def knownPat : KnownExpr → Bytes
  | .projectName => lb ++ ascii ".ProjectName" ++ rb
  | .githubRepo => lb ++ ascii ".GitHubRepo" ++ rb
  | .author => lb ++ ascii ".Author" ++ rb
  | .description => lb ++ ascii ".Description" ++ rb
  | .pnKebab => lb ++ ascii ".ProjectName | kebab" ++ rb
  | .pnSnake => lb ++ ascii ".ProjectName | snake" ++ rb
  | .pnUpper => lb ++ ascii ".ProjectName | upper" ++ rb
  | .pnLower => lb ++ ascii ".ProjectName | lower" ++ rb
  | .pnTitle => lb ++ ascii ".ProjectName | title" ++ rb

/-- The placeholder token of each known expression
(`templateReplacements` in generator.go). -/
def knownPlaceholder : KnownExpr → Bytes
  | .projectName => ascii "__PROJECT_NAME_PLACEHOLDER__"
  | .githubRepo => ascii "__GITHUB_REPO_PLACEHOLDER__"
  | .author => ascii "__AUTHOR_PLACEHOLDER__"
  | .description => ascii "__DESCRIPTION_PLACEHOLDER__"
  | .pnKebab => ascii "__PROJECT_NAME_KEBAB_PLACEHOLDER__"
  | .pnSnake => ascii "__PROJECT_NAME_SNAKE_PLACEHOLDER__"
  | .pnUpper => ascii "__PROJECT_NAME_UPPER_PLACEHOLDER__"
  | .pnLower => ascii "__PROJECT_NAME_LOWER_PLACEHOLDER__"
  | .pnTitle => ascii "__PROJECT_NAME_TITLE_PLACEHOLDER__"

/-- The known expressions in the order listed in the source map literal. -/
def knownList : List KnownExpr :=
  [.projectName, .githubRepo, .author, .description,
   .pnKebab, .pnSnake, .pnUpper, .pnLower, .pnTitle]

/-- Sentinel for an escaped left delimiter. -/
def escL : Bytes := ascii "__ESCAPED_LEFT_BRACE__"

/-- Sentinel for an escaped right delimiter. -/
def escR : Bytes := ascii "__ESCAPED_RIGHT_BRACE__"

/-- ASCII lower-casing.  Go `strings.ToLower` does full Unicode simple case
mapping; every claim here exercises only ASCII. -/
def asciiToLower (s : Bytes) : Bytes :=
  s.map (fun b => if 65 ≤ b ∧ b ≤ 90 then b + 32 else b)

/-- ASCII upper-casing (same Unicode caveat as `asciiToLower`). -/
def asciiToUpper (s : Bytes) : Bytes :=
  s.map (fun b => if 97 ≤ b ∧ b ≤ 122 then b - 32 else b)

/-- `kebab` from the `FuncMap`: `ToLower(ReplaceAll(s, " ", "-"))`. -/
def kebabFn (s : Bytes) : Bytes := asciiToLower (replaceAll [32] [45] s)

/-- `snake` from the `FuncMap`: `ToLower(ReplaceAll(s, " ", "_"))`. -/
def snakeFn (s : Bytes) : Bytes := asciiToLower (replaceAll [32] [95] s)

/-- `title` from the `FuncMap`: upper-case the first rune (ASCII model). -/
def titleFn (s : Bytes) : Bytes :=
  match s with
  | [] => []
  | c :: rest => (if 97 ≤ c ∧ c ≤ 122 then c - 32 else c) :: rest

/-- The value each known expression renders to. -/
def knownValue (v : TemplateVariables) : KnownExpr → Bytes
  | .projectName => v.ProjectName
  | .githubRepo => v.GitHubRepo
  | .author => v.Author
  | .description => v.Description
  | .pnKebab => kebabFn v.ProjectName
  | .pnSnake => snakeFn v.ProjectName
  | .pnUpper => asciiToUpper v.ProjectName
  | .pnLower => asciiToLower v.ProjectName
  | .pnTitle => titleFn v.ProjectName

/-- The protection pass: swap each known expression for its placeholder.
Go iterates the `templateReplacements` map in unspecified order; the nine
patterns and placeholders are mutually non-overlapping, so the passes
commute and the model fixes the source listing order. -/
def protect (c : Bytes) : Bytes :=
  knownList.foldl (fun c k => replaceAll (knownPat k) (knownPlaceholder k) c) c

/-- The restoration pass: swap each placeholder back to its expression. -/
def restore (c : Bytes) : Bytes :=
  knownList.foldl (fun c k => replaceAll (knownPlaceholder k) (knownPat k) c) c

/-- The first known expression whose text starts at this position. -/
def matchKnown (s : Bytes) : Option KnownExpr :=
  knownList.find? (fun k => (knownPat k).isPrefixOf s)

/-- Fuelled model of `template.Parse` + `Execute` with the repository's
`FuncMap`, on the restricted grammar the pipeline can produce: text is
copied verbatim; a left delimiter must open one of the nine known
expressions (field access, or field piped through a registered transform),
which renders to its value; any other action makes the engine fail
(`none`).  On strings in which every `{{` opens a known expression — the
only strings the pipeline's escape stage can feed the engine — this agrees
with Go `text/template`; other actions would variously fail at parse or
execute time and are modelled as failure. -/
def execTF (v : TemplateVariables) : Nat → Bytes → Option Bytes
  | _, [] => some []
  | 0, _ => none
  | fuel+1, c :: rest =>
    if lb.isPrefixOf (c :: rest) then
      match matchKnown (c :: rest) with
      | some k =>
        (execTF v fuel ((c :: rest).drop (knownPat k).length)).map (knownValue v k ++ ·)
      | none => none
    else
      (execTF v fuel rest).map (c :: ·)

/-- Parse-and-execute with enough fuel for the whole string. -/
def execT (v : TemplateVariables) (s : Bytes) : Option Bytes := execTF v s.length s

/-- The templating pipeline of `processTemplatedFile` on post-mapping
content: protect, escape (left then right), restore, execute, un-escape
(left then right). -/
def renderTemplate (v : TemplateVariables) (mapped : Bytes) : Option Bytes :=
  match execT v (restore (replaceAll rb escR (replaceAll lb escL (protect mapped)))) with
  | none => none
  | some out => some (replaceAll escR rb (replaceAll escL lb out))

/-- Mapping substitution: plain string replacement, in declaration order,
before the templating pass. -/
def applyMappings (ms : List Mapping) (c : Bytes) : Bytes :=
  ms.foldl (fun c m => replaceAll m.find m.replace c) c

/-- Content-level model of `processFile`: decompress, then either copy the
bytes verbatim (static file) or run mappings and the templating pipeline. -/
def processFileContent (gunzip : Bytes → Option Bytes) (v : TemplateVariables)
    (f : FileSpec) : Except Bytes Bytes :=
  match DecompressContent gunzip f.content f.compressed with
  | .error e => .error e
  | .ok content =>
    if f.template then
      match renderTemplate v (applyMappings f.mappings content) with
      | none => .error (ascii "failed to parse or execute template")
      | some out => .ok out
    else .ok content

/-- The `TemplateVariables` built by `NewGenerator`: caller-supplied name
and repo, default author `"Developer"`, description `"A %s application"`. -/
def mkTemplateVariables (projectName githubRepo : Bytes) : TemplateVariables :=
  { ProjectName := projectName, GitHubRepo := githubRepo
    Author := ascii "Developer"
    Description := ascii "A " ++ projectName ++ ascii " application" }

/-! ### Claim C8: substitution correctness -/

def fileC8 : FileSpec :=
  { path := ascii "README.md", template := true
    content := ascii "# " ++ knownPat .projectName ++ ascii "\n\nRepository: " ++
      knownPat .githubRepo
    size := 50, hash := [], compressed := false, mappings := [] }

/-- C8: generating the templated FileSpec with content
`"# {{.ProjectName}}\n\nRepository: {{.GitHubRepo}}"` under
`ProjectName="test-project"`, `GitHubRepo="user/test-repo"` writes exactly
`"# test-project\n\nRepository: user/test-repo"`. -/
theorem substitution_correct :
    processFileContent (fun _ => none)
      (mkTemplateVariables (ascii "test-project") (ascii "user/test-repo")) fileC8 =
      .ok (ascii "# test-project\n\nRepository: user/test-repo") := by
  rfl

/-! ### Claim C9: mapping-then-template ordering -/

def fileC9 : FileSpec :=
  { path := ascii "go.mod", template := true
    content := ascii "module old/path\n\ngo 1.21\n"
    size := 25, hash := [], compressed := false
    mappings := [{ find := ascii "module old/path"
                   replace := ascii "module github.com/" ++ knownPat .githubRepo }] }

/-- C9: a Mapping rewriting `"module old/path"` to
`"module github.com/{{.GitHubRepo}}"` (plain substring replacement, applied
before template execution), generated with `GitHubRepo="acme/widget"`,
produces output containing `"module github.com/acme/widget"`. -/
theorem mapping_then_template :
    processFileContent (fun _ => none)
      (mkTemplateVariables (ascii "widget") (ascii "acme/widget")) fileC9 =
      .ok (ascii "module github.com/acme/widget\n\ngo 1.21\n") ∧
    (ascii "module github.com/acme/widget") <:+:
      (ascii "module github.com/acme/widget\n\ngo 1.21\n") := by
  exact ⟨rfl, by decide⟩

/-! ### Claim C1: the templating escape round-trip -/

def contentC1 : Bytes := ascii "x__PROJECT_NAME_PLACEHOLDER" ++ lb ++ ascii "y" ++ rb

def pairC1 : Bytes := lb ++ ascii "y" ++ rb

/-- C1 counterexample: content whose text collides with a placeholder
token.  `"x__PROJECT_NAME_PLACEHOLDER{{y}}"` contains the literal pair
`"{{y}}"`, which matches no known substitution expression — yet after the
escape stage the text reads
`"x__PROJECT_NAME_PLACEHOLDER__ESCAPED_LEFT_BRACE__y..."`, the restore pass
finds `__PROJECT_NAME_PLACEHOLDER__` spanning the collision and conjures a
`{{.ProjectName}}` expression, and the written output no longer contains
`"{{y}}"`.  (This is the fixed-sentinel collision the design notes flag.) -/
theorem templating_escape_cex :
    pairC1 <:+: contentC1 ∧
    (∀ k ∈ knownList, ¬ (knownPat k <:+: contentC1)) ∧
    renderTemplate (mkTemplateVariables (ascii "P") (ascii "r")) contentC1 =
      some (ascii "xPESCAPED_LEFT_BRACE__y" ++ rb) ∧
    ¬ (pairC1 <:+: (ascii "xPESCAPED_LEFT_BRACE__y" ++ rb)) := by
  refine ⟨by decide, by decide, by rfl, by decide⟩

/-! #### The amended round-trip, over structured content

Content is an alternation of brace-free literal text and well-delimited
unknown pairs: `l0 {{b₁}} l₁ {{b₂}} l₂ …`.  `flatPairsT`/`flat1T`/`flat2T`/
`flat3T` are the shapes of the tail after each pipeline stage. -/

def flatPairsT : List (Bytes × Bytes) → Bytes
  | [] => []
  | (b, l) :: rest => lb ++ b ++ rb ++ l ++ flatPairsT rest

/-- The whole structured content. -/
def flatPairs (l0 : Bytes) (ps : List (Bytes × Bytes)) : Bytes := l0 ++ flatPairsT ps

/-- Tail shape after escaping left delimiters. -/
def flat1T : List (Bytes × Bytes) → Bytes
  | [] => []
  | (b, l) :: rest => escL ++ b ++ rb ++ l ++ flat1T rest

/-- Tail shape after escaping both delimiters. -/
def flat2T : List (Bytes × Bytes) → Bytes
  | [] => []
  | (b, l) :: rest => escL ++ b ++ escR ++ l ++ flat2T rest

/-- Tail shape after un-escaping the left sentinels. -/
def flat3T : List (Bytes × Bytes) → Bytes
  | [] => []
  | (b, l) :: rest => lb ++ b ++ escR ++ l ++ flat3T rest

/-- No brace bytes at all. -/
def braceFree (s : Bytes) : Prop := 123 ∉ s ∧ 125 ∉ s

instance (s : Bytes) : Decidable (braceFree s) := by
  unfold braceFree
  infer_instance

/-- Safety of the left un-escape pass: no spurious occurrence of the left
sentinel, also across segment boundaries. -/
def safeLAux : Bytes → List (Bytes × Bytes) → Prop
  | x, [] => ¬ (escL <:+: x)
  | x, (b, l) :: rest =>
    ¬ (escL <:+: x ++ escL.take (escL.length - 1)) ∧ safeLAux (b ++ escR ++ l) rest

instance safeLAuxDec : (x : Bytes) → (ps : List (Bytes × Bytes)) → Decidable (safeLAux x ps)
  | x, [] => by unfold safeLAux; infer_instance
  | x, (b, l) :: rest => by
    unfold safeLAux
    have := safeLAuxDec (b ++ escR ++ l) rest
    infer_instance

/-- Safety of the right un-escape pass. -/
def safeRAux : Bytes → List (Bytes × Bytes) → Prop
  | x, [] => ¬ (escR <:+: x)
  | x, (b, l) :: rest =>
    ¬ (escR <:+: x ++ lb ++ b ++ escR.take (escR.length - 1)) ∧ safeRAux l rest

instance safeRAuxDec : (x : Bytes) → (ps : List (Bytes × Bytes)) → Decidable (safeRAux x ps)
  | x, [] => by unfold safeRAux; infer_instance
  | x, (b, l) :: rest => by
    unfold safeRAux
    have := safeRAuxDec l rest
    infer_instance

theorem infix_append_left (x : Bytes) {u y : Bytes} (h : u <:+: y) : u <:+: x ++ y := by
  obtain ⟨s, t, rfl⟩ := h
  exact ⟨x ++ s, t, by simp⟩

theorem count_append_le {c : Nat} {x w : Bytes} (hx : c ∉ x) (hw : w.length ≤ 1) :
    (x ++ w).count c ≤ 1 := by
  rw [List.count_append]
  have h1 : x.count c = 0 := List.count_eq_zero.mpr hx
  have h2 : w.count c ≤ w.length := List.count_le_length c w
  omega

theorem not_lb_infix_boundary {x z : Bytes} (hx : 123 ∉ x) :
    ¬ (lb <:+: x ++ z.take (lb.length - 1)) := by
  refine not_infix_of_count (c := 123) (by decide) ?_
  refine count_append_le hx ?_
  rw [show lb.length - 1 = 1 from rfl]
  have h := List.length_take 1 z
  omega

theorem not_rb_infix_boundary {x z : Bytes} (hx : 125 ∉ x) :
    ¬ (rb <:+: x ++ z.take (rb.length - 1)) := by
  refine not_infix_of_count (c := 125) (by decide) ?_
  refine count_append_le hx ?_
  rw [show rb.length - 1 = 1 from rfl]
  have h := List.length_take 1 z
  omega

/-- A generic no-occurrence fold: if none of the patterns occur, the
protect/restore fold is the identity. -/
theorem foldl_replaceAll_id (pf rf : KnownExpr → Bytes) :
    ∀ (l : List KnownExpr) (c : Bytes), (∀ k ∈ l, ¬ (pf k <:+: c)) →
      l.foldl (fun c k => replaceAll (pf k) (rf k) c) c = c := by
  intro l
  induction l with
  | nil => intro c _; rfl
  | cons k rest ih =>
    intro c h
    have hk : replaceAll (pf k) (rf k) c = c :=
      replaceAll_of_not_infix _ (h k (by simp))
    rw [List.foldl_cons, hk]
    exact ih c (fun k' hk' => h k' (by simp [hk']))

theorem protect_of_no_known {c : Bytes} (h : ∀ k ∈ knownList, ¬ (knownPat k <:+: c)) :
    protect c = c :=
  foldl_replaceAll_id knownPat knownPlaceholder knownList c h

theorem restore_of_no_placeholder {c : Bytes}
    (h : ∀ k ∈ knownList, ¬ (knownPlaceholder k <:+: c)) : restore c = c :=
  foldl_replaceAll_id knownPlaceholder knownPat knownList c h

theorem not_mem_append3 {c : Nat} {a b d : Bytes} (ha : c ∉ a) (hb : c ∉ b) (hd : c ∉ d) :
    c ∉ a ++ b ++ d := by
  simp [List.mem_append]
  tauto

/-- The left-escape pass maps the structured content shape-wise. -/
theorem escL_hom : ∀ (ps : List (Bytes × Bytes)) (x : Bytes), 123 ∉ x →
    (∀ pr ∈ ps, 123 ∉ pr.1 ∧ 123 ∉ pr.2) →
    replaceAll lb escL (x ++ flatPairsT ps) = x ++ flat1T ps := by
  intro ps
  induction ps with
  | nil =>
    intro x hx _
    show replaceAll lb escL (x ++ []) = x ++ []
    simp only [List.append_nil]
    exact replaceAll_of_not_infix _ (not_infix_of_not_mem (c := 123) (by decide) hx)
  | cons pr rest ih =>
    obtain ⟨b, l⟩ := pr
    intro x hx hps
    have hb : 123 ∉ b := (hps (b, l) (by simp)).1
    have hl : 123 ∉ l := (hps (b, l) (by simp)).2
    have hrest : ∀ pr ∈ rest, 123 ∉ pr.1 ∧ 123 ∉ pr.2 := fun pr hpr => hps pr (by simp [hpr])
    have hx' : 123 ∉ b ++ rb ++ l := not_mem_append3 hb (by decide) hl
    calc replaceAll lb escL (x ++ flatPairsT ((b, l) :: rest))
        = replaceAll lb escL (x ++ (lb ++ ((b ++ rb ++ l) ++ flatPairsT rest))) :=
          congrArg _ (by simp [flatPairsT, List.append_assoc])
      _ = x ++ replaceAll lb escL (lb ++ ((b ++ rb ++ l) ++ flatPairsT rest)) :=
          replaceAll_append_of_no_occ escL (by decide) (not_lb_infix_boundary hx)
      _ = x ++ (escL ++ replaceAll lb escL ((b ++ rb ++ l) ++ flatPairsT rest)) := by
          rw [replaceAll_head escL _ (by decide)]
      _ = x ++ (escL ++ ((b ++ rb ++ l) ++ flat1T rest)) := by
          rw [ih (b ++ rb ++ l) hx' hrest]
      _ = x ++ flat1T ((b, l) :: rest) := by simp [flat1T, List.append_assoc]

/-- The right-escape pass maps the once-escaped shape shape-wise. -/
theorem escR_hom : ∀ (ps : List (Bytes × Bytes)) (x : Bytes), 125 ∉ x →
    (∀ pr ∈ ps, 125 ∉ pr.1 ∧ 125 ∉ pr.2) →
    replaceAll rb escR (x ++ flat1T ps) = x ++ flat2T ps := by
  intro ps
  induction ps with
  | nil =>
    intro x hx _
    show replaceAll rb escR (x ++ []) = x ++ []
    simp only [List.append_nil]
    exact replaceAll_of_not_infix _ (not_infix_of_not_mem (c := 125) (by decide) hx)
  | cons pr rest ih =>
    obtain ⟨b, l⟩ := pr
    intro x hx hps
    have hb : 125 ∉ b := (hps (b, l) (by simp)).1
    have hl : 125 ∉ l := (hps (b, l) (by simp)).2
    have hrest : ∀ pr ∈ rest, 125 ∉ pr.1 ∧ 125 ∉ pr.2 := fun pr hpr => hps pr (by simp [hpr])
    have hx' : 125 ∉ x ++ escL ++ b := not_mem_append3 hx (by decide) hb
    calc replaceAll rb escR (x ++ flat1T ((b, l) :: rest))
        = replaceAll rb escR ((x ++ escL ++ b) ++ (rb ++ (l ++ flat1T rest))) :=
          congrArg _ (by simp [flat1T, List.append_assoc])
      _ = (x ++ escL ++ b) ++ replaceAll rb escR (rb ++ (l ++ flat1T rest)) :=
          replaceAll_append_of_no_occ escR (by decide) (not_rb_infix_boundary hx')
      _ = (x ++ escL ++ b) ++ (escR ++ replaceAll rb escR (l ++ flat1T rest)) := by
          rw [replaceAll_head escR _ (by decide)]
      _ = (x ++ escL ++ b) ++ (escR ++ (l ++ flat2T rest)) := by
          rw [ih l hl hrest]
      _ = x ++ flat2T ((b, l) :: rest) := by simp [flat2T, List.append_assoc]

/-- The left un-escape pass restores the left delimiters exactly at the
designated sentinels, given the `safeLAux` no-collision conditions. -/
theorem unescL_hom : ∀ (ps : List (Bytes × Bytes)) (x : Bytes), safeLAux x ps →
    replaceAll escL lb (x ++ flat2T ps) = x ++ flat3T ps := by
  intro ps
  induction ps with
  | nil =>
    intro x hx
    show replaceAll escL lb (x ++ []) = x ++ []
    simp only [List.append_nil]
    exact replaceAll_of_not_infix _ hx
  | cons pr rest ih =>
    obtain ⟨b, l⟩ := pr
    intro x hx
    obtain ⟨hC, hrest⟩ := hx
    have hz : ((escL ++ ((b ++ escR ++ l) ++ flat2T rest)) : Bytes).take (escL.length - 1) =
        escL.take (escL.length - 1) := by
      rw [List.take_append_eq_append_take]
      have h22 : escL.length = 22 := by decide
      rw [h22]
      simp
    have hC' : ¬ (escL <:+:
        x ++ ((escL ++ ((b ++ escR ++ l) ++ flat2T rest)) : Bytes).take (escL.length - 1)) := by
      rw [hz]
      exact hC
    calc replaceAll escL lb (x ++ flat2T ((b, l) :: rest))
        = replaceAll escL lb (x ++ (escL ++ ((b ++ escR ++ l) ++ flat2T rest))) :=
          congrArg _ (by simp [flat2T, List.append_assoc])
      _ = x ++ replaceAll escL lb (escL ++ ((b ++ escR ++ l) ++ flat2T rest)) :=
          replaceAll_append_of_no_occ lb (by decide) hC'
      _ = x ++ (lb ++ replaceAll escL lb ((b ++ escR ++ l) ++ flat2T rest)) := by
          rw [replaceAll_head lb _ (by decide)]
      _ = x ++ (lb ++ ((b ++ escR ++ l) ++ flat3T rest)) := by
          rw [ih (b ++ escR ++ l) hrest]
      _ = x ++ flat3T ((b, l) :: rest) := by simp [flat3T, List.append_assoc]

/-- The right un-escape pass restores the right delimiters exactly at the
designated sentinels, given the `safeRAux` no-collision conditions. -/
theorem unescR_hom : ∀ (ps : List (Bytes × Bytes)) (x : Bytes), safeRAux x ps →
    replaceAll escR rb (x ++ flat3T ps) = x ++ flatPairsT ps := by
  intro ps
  induction ps with
  | nil =>
    intro x hx
    show replaceAll escR rb (x ++ []) = x ++ []
    simp only [List.append_nil]
    exact replaceAll_of_not_infix _ hx
  | cons pr rest ih =>
    obtain ⟨b, l⟩ := pr
    intro x hx
    obtain ⟨hC, hrest⟩ := hx
    have hz : ((escR ++ (l ++ flat3T rest)) : Bytes).take (escR.length - 1) =
        escR.take (escR.length - 1) := by
      rw [List.take_append_eq_append_take]
      have h23 : escR.length = 23 := by decide
      rw [h23]
      simp
    have hC' : ¬ (escR <:+:
        (x ++ lb ++ b) ++ ((escR ++ (l ++ flat3T rest)) : Bytes).take (escR.length - 1)) := by
      rw [hz]
      exact hC
    calc replaceAll escR rb (x ++ flat3T ((b, l) :: rest))
        = replaceAll escR rb ((x ++ lb ++ b) ++ (escR ++ (l ++ flat3T rest))) :=
          congrArg _ (by simp [flat3T, List.append_assoc])
      _ = (x ++ lb ++ b) ++ replaceAll escR rb (escR ++ (l ++ flat3T rest)) :=
          replaceAll_append_of_no_occ rb (by decide) hC'
      _ = (x ++ lb ++ b) ++ (rb ++ replaceAll escR rb (l ++ flat3T rest)) := by
          rw [replaceAll_head rb _ (by decide)]
      _ = (x ++ lb ++ b) ++ (rb ++ (l ++ flatPairsT rest)) := by
          rw [ih l hrest]
      _ = x ++ flatPairsT ((b, l) :: rest) := by simp [flatPairsT, List.append_assoc]

theorem not_mem_flat2T {c : Nat} (hcL : c ∉ escL) (hcR : c ∉ escR) :
    ∀ ps : List (Bytes × Bytes), (∀ pr ∈ ps, c ∉ pr.1 ∧ c ∉ pr.2) → c ∉ flat2T ps := by
  intro ps
  induction ps with
  | nil =>
    intro _
    show c ∉ ([] : Bytes)
    simp
  | cons pr rest ih =>
    obtain ⟨b, l⟩ := pr
    intro h
    have hb : c ∉ b := (h (b, l) (by simp)).1
    have hl : c ∉ l := (h (b, l) (by simp)).2
    have hr : c ∉ flat2T rest := ih (fun pr hpr => h pr (by simp [hpr]))
    show c ∉ escL ++ b ++ escR ++ l ++ flat2T rest
    simp [List.mem_append]
    tauto

/-- On text with no left delimiter at all, the engine copies its input. -/
theorem execTF_copy (v : TemplateVariables) :
    ∀ (f : Nat) (s : Bytes), s.length ≤ f → 123 ∉ s → execTF v f s = some s := by
  intro f
  induction f with
  | zero =>
    intro s hs _
    have : s = [] := List.length_eq_zero.mp (Nat.le_zero.mp hs)
    subst this
    rfl
  | succ f ih =>
    intro s hs h123
    cases s with
    | nil => rfl
    | cons c rest =>
      have hpre : ¬ (lb.isPrefixOf (c :: rest) = true) := by
        intro hp
        obtain ⟨t, ht⟩ := List.isPrefixOf_iff_prefix.mp hp
        have hc : c = 123 := by
          have ht' : 123 :: 123 :: t = c :: rest := ht
          exact (List.cons.injEq _ _ _ _ ▸ ht').1.symm
        exact h123 (hc ▸ List.mem_cons_self c rest)
      have htl : 123 ∉ rest := fun hm => h123 (List.mem_cons_of_mem c hm)
      have hlen : rest.length ≤ f := by
        simp at hs
        omega
      rw [execTF, if_neg hpre, ih rest hlen htl]
      rfl

theorem execT_copy (v : TemplateVariables) (s : Bytes) (h : 123 ∉ s) :
    execT v s = some s :=
  execTF_copy v s.length s (Nat.le_refl _) h

theorem pair_infix_flatPairsT :
    ∀ (ps : List (Bytes × Bytes)) (pr : Bytes × Bytes), pr ∈ ps →
      (lb ++ pr.1 ++ rb) <:+: flatPairsT ps := by
  intro ps
  induction ps with
  | nil => intro pr h; simp at h
  | cons hd rest ih =>
    obtain ⟨b, l⟩ := hd
    intro pr h
    rcases List.mem_cons.mp h with h | h
    · subst h
      exact ⟨[], l ++ flatPairsT rest, by simp [flatPairsT, List.append_assoc]⟩
    · have := infix_append_left (lb ++ b ++ rb ++ l) (ih pr h)
      have hshape : (lb ++ b ++ rb ++ l) ++ flatPairsT rest = flatPairsT ((b, l) :: rest) := by
        simp [flatPairsT, List.append_assoc]
      exact hshape ▸ this

/-- C1 amended: for content decomposed as brace-free literal text around
well-delimited unknown pairs, with no known substitution expression in the
content and no collision with the placeholder or sentinel tokens (also
across boundaries — `safeLAux`/`safeRAux`), the templating pipeline returns
the content byte-for-byte, so every literal delimiter pair survives
unchanged.  The no-collision hypotheses are exactly what the counterexample
shows to be necessary against the fixed sentinel strings. -/
theorem templating_escape_amended (v : TemplateVariables) (l0 : Bytes)
    (ps : List (Bytes × Bytes))
    (hl0 : braceFree l0)
    (hps : ∀ pr ∈ ps, braceFree pr.1 ∧ braceFree pr.2)
    (hknown : ∀ k ∈ knownList, ¬ (knownPat k <:+: flatPairs l0 ps))
    (hph : ∀ k ∈ knownList, ¬ (knownPlaceholder k <:+: l0 ++ flat2T ps))
    (hsL : safeLAux l0 ps)
    (hsR : safeRAux l0 ps) :
    renderTemplate v (flatPairs l0 ps) = some (flatPairs l0 ps) ∧
    ∀ pr ∈ ps, (lb ++ pr.1 ++ rb) <:+: flatPairs l0 ps := by
  have h123ps : ∀ pr ∈ ps, 123 ∉ pr.1 ∧ 123 ∉ pr.2 :=
    fun pr hpr => ⟨(hps pr hpr).1.1, (hps pr hpr).2.1⟩
  have h125ps : ∀ pr ∈ ps, 125 ∉ pr.1 ∧ 125 ∉ pr.2 :=
    fun pr hpr => ⟨(hps pr hpr).1.2, (hps pr hpr).2.2⟩
  refine ⟨?_, fun pr hpr => infix_append_left l0 (pair_infix_flatPairsT ps pr hpr)⟩
  unfold renderTemplate
  rw [protect_of_no_known hknown,
    show flatPairs l0 ps = l0 ++ flatPairsT ps from rfl,
    escL_hom ps l0 hl0.1 h123ps,
    escR_hom ps l0 hl0.2 h125ps,
    restore_of_no_placeholder hph]
  have hne : 123 ∉ l0 ++ flat2T ps := by
    rw [List.mem_append]
    push_neg
    exact ⟨hl0.1, not_mem_flat2T (by decide) (by decide) ps h123ps⟩
  rw [execT_copy v _ hne]
  show some (replaceAll escR rb (replaceAll escL lb (l0 ++ flat2T ps))) = _
  rw [unescL_hom ps l0 hsL, unescR_hom ps l0 hsR]

/-- Witness for C1 amended: `"a: {{x}} b"` passes through the pipeline
unchanged. -/
theorem templating_escape_amended_witness :
    renderTemplate (mkTemplateVariables (ascii "p") (ascii "r"))
        (flatPairs (ascii "a: ") [(ascii "x", ascii " b")]) =
      some (flatPairs (ascii "a: ") [(ascii "x", ascii " b")]) :=
  (templating_escape_amended (mkTemplateVariables (ascii "p") (ascii "r"))
    (ascii "a: ") [(ascii "x", ascii " b")]
    (by decide) (by decide) (by decide) (by decide) (by decide) (by decide)).1

end TemplateEngine
